import Mathlib

/-
Verification development for the commandclasses repository (src/commandclasses.py
and its helpers).  The Python code is shallowly embedded: dictionaries become
insertion-ordered association lists, class attribute tables become lists of
tagged attribute values, argparse (an external collaborator per the spec) is
abstracted as a per-node scan function, and the difflib suggestion helper (an
external standard-library collaborator) is modelled executably so that the
concrete suggestion example can be evaluated.
-/

namespace Commandclasses

/-! ### Association-list helpers (Python dict, insertion ordered)

`lookupA` is dict lookup, `containsKey` the `in` test, `setKey` models
`d[k] = v` (replaces in place, else appends), matching CPython's
insertion-order-preserving dict semantics. -/

def lookupA {α : Type} : String → List (String × α) → Option α
  | _, [] => none
  | k, (k', v) :: rest => if k' = k then some v else lookupA k rest

def containsKey {α : Type} (k : String) : List (String × α) → Bool
  | [] => false
  | (k', _) :: rest => if k' = k then true else containsKey k rest

def setKey {α : Type} : List (String × α) → String → α → List (String × α)
  | [], k, v => [(k, v)]
  | (k', v') :: rest, k, v =>
      if k' = k then (k, v) :: rest else (k', v') :: setKey rest k v

/-! ### Name normalization (commandclasses.py, normalize_name / denormalize_name) -/

/-- Turn an attribute name into an argument name, e.g. foo_bar yields foo-bar
(`name.replace('_', '-')`, a single-character substitution). -/
def normalize_name (name : String) : String :=
  String.mk (name.data.map (fun c => if c = '_' then '-' else c))

/-- Turn an argument name into an attribute name, e.g. --foo-bar yields
foo_bar (`name.lstrip('-').replace('-', '_')`). -/
def denormalize_name (name : String) : String :=
  String.mk ((name.data.dropWhile (fun c => c = '-')).map
    (fun c => if c = '-' then '_' else c))

/-! ### Runtime values and instances

Parsed command-line values.  A command instance, for the purposes of
requirement checking and dry-run echoing, is its attribute table: a function
from attribute name to the parsed value (`none` models Python `None`, i.e.
"not yet parsed", since every declared argument's attribute is initialised to
`None`). -/

inductive Value where
  | vbool : Bool → Value
  | vstr : String → Value
  | vint : Int → Value
  deriving DecidableEq, Repr

/-- Python truthiness of a parsed value. -/
def Value.truthy : Value → Bool
  | .vbool b => b
  | .vstr s => !(s = "")
  | .vint n => !(n = 0)

def InstMap : Type := String → Option Value

/-- Truthiness of `getattr(...)` / `dict.get(...)` results (`None` is falsy). -/
def truthyO : Option Value → Bool
  | none => false
  | some v => v.truthy

/-! ### The Argument descriptor (commandclasses.py, class Argument / argument())

Fields mirror the dataclass: `name` and `type` start unset (`None`) and are
populated during argument-list creation; `required_when` / `illegal_when` are
predicates over the fully-parsed owning instance; `metaAction` / `metaDest`
model the `action` / `dest` entries of the pass-through `meta_args` dict
(the only `meta_args` keys the embedded code paths read); `default_factory`
is modelled by the value it would produce for the owning class (`none` when
no factory was declared). -/

inductive ArgType where
  | str | bool | int | list | tup
  deriving DecidableEq, Repr

inductive ActionKind where
  | storeTrue | storeFalse | store | append
  deriving DecidableEq, Repr

structure Argument where
  name : Option String := none
  type : Option ArgType := none
  aliases : List String := []
  allow_inverse : Bool := true
  default : Option Value := none
  default_factory : Option (Option Value) := none
  help : Option String := none
  required : Bool := false
  required_when : Option (InstMap → Bool) := none
  illegal_when : Option (InstMap → Bool) := none
  show_help : Bool := true
  metaAction : Option ActionKind := none
  metaDest : Option String := none

/-- The resolved name of an argument (resolution always sets it; Python would
raise on an unset name, the default only mirrors the initial `None`). -/
def argName (a : Argument) : String := a.name.getD ""

/-- Evaluate an optional predicate the way Python evaluates
`arg.p and arg.p(instance)`: an absent predicate counts as false. -/
def predHolds (p : Option (InstMap → Bool)) (inst : InstMap) : Bool :=
  match p with
  | some f => f inst
  | none => false

/-! ### Requirement checker (commandclasses.py, _check_requirement and friends)

Each checker returns the `invalid` flag together with the error messages it
printed via `out.error`. -/

/-- `_check_requirements_when_present`: a parsed argument is invalid exactly
when its `illegal_when` predicate is present and holds. -/
def check_requirements_when_present (arg : Argument) (instance_ : InstMap) :
    Bool × List String :=
  if predHolds arg.illegal_when instance_ then
    (true, ["--" ++ normalize_name (argName arg) ++ " is illegal, due to other options"])
  else
    (false, [])

/-- `_check_requirements_when_missing`: an unparsed argument records an error
if `required` is set, and independently another if `required_when` holds. -/
def check_requirements_when_missing (arg : Argument) (instance_ : InstMap) :
    Bool × List String :=
  let r1 : Bool × List String :=
    if arg.required then
      (true, ["--" ++ normalize_name (argName arg) ++ " is required but missing"])
    else (false, [])
  let r2 : Bool × List String :=
    if predHolds arg.required_when instance_ then
      (true, ["--" ++ normalize_name (argName arg) ++ " is required, due to other options, but missing"])
    else (false, [])
  (r1.1 || r2.1, r1.2 ++ r2.2)

/-- `_check_requirement`: dispatch on whether the argument was parsed
(`getattr(instance, arg.name, None) is not None`). -/
def check_requirement (arg : Argument) (instance_ : InstMap) : Bool × List String :=
  if (instance_ (argName arg)).isSome then
    check_requirements_when_present arg instance_
  else
    check_requirements_when_missing arg instance_

/-- `_check_required_arguments`: every argument is checked (the Python code
forces the whole filtered list), all messages are emitted, and a single
aggregate exception is raised when any check failed.  The first component is
the list of all emitted error messages, the second the raise/return outcome. -/
def check_required_arguments (args : List Argument) (instance_ : InstMap) :
    List String × Except String Unit :=
  let results := args.map (fun a => check_requirement a instance_)
  let msgs := results.foldr (fun r acc => r.2 ++ acc) []
  (msgs, if results.any (fun r => r.1) then
           Except.error "invalid argument(s) given to command"
         else Except.ok ())

/-! ### Parser construction for one argument (commandclasses.py, Argument.add_to)

The argparse parser itself is an external collaborator; what the repository
contributes is which option strings are registered, with which action and
destination, and whether the pair lives in a mutually exclusive group.  The
`type`/converter property (lines setting `properties['type']`) only affects
value conversion inside argparse and is not observable in this model. -/

structure AddedOpt where
  flags : List String
  action : Option ActionKind
  dest : Option String
  default : Option Value
  deriving DecidableEq, Repr

inductive ParserAdd where
  | single : AddedOpt → ParserAdd
  | exclusiveGroup : AddedOpt → AddedOpt → ParserAdd
  deriving DecidableEq, Repr

/-- `str.startswith`, on the character content. -/
def py_startswith (s pre : String) : Bool := pre.data.isPrefixOf s.data

/-- `Argument.invertible`: boolean type, inversion allowed, and the name does
not already start with "no". -/
def Argument.invertible (a : Argument) : Bool :=
  a.type == some ArgType.bool && a.allow_inverse && !(py_startswith (argName a) "no")

/-- The `action` property set by `Argument.add_to`: setdefault semantics, so
an explicit `meta_args` action wins over the bool / (list, tuple) defaults. -/
def effectiveAction (a : Argument) : Option ActionKind :=
  if a.type == some ArgType.bool then some (a.metaAction.getD ActionKind.storeTrue)
  else if a.type == some ArgType.list || a.type == some ArgType.tup then
    some (a.metaAction.getD ActionKind.append)
  else a.metaAction

/-- The `default` property set by `Argument.add_to`: a truthy
`default_factory` result overrides the declared default. -/
def effectiveDefault (a : Argument) : Option Value :=
  match a.default_factory with
  | some produced => if truthyO produced then produced else a.default
  | none => a.default

/-- `Argument.add_to`: register either a mutually exclusive
--flag / --no-flag pair sharing one destination (the `dest` setdefault), or a
single option; the option strings are the long flag plus any aliases. -/
def Argument.add_to (a : Argument) : ParserAdd :=
  let names_and_flags := ("--" ++ normalize_name (argName a)) :: a.aliases
  if a.invertible then
    let dest := some (a.metaDest.getD (argName a))
    ParserAdd.exclusiveGroup
      { flags := names_and_flags, action := effectiveAction a, dest := dest,
        default := effectiveDefault a }
      { flags := ["--no-" ++ normalize_name (argName a)],
        action := some ActionKind.storeFalse, dest := dest,
        default := effectiveDefault a }
  else
    ParserAdd.single
      { flags := names_and_flags, action := effectiveAction a, dest := a.metaDest,
        default := effectiveDefault a }

/-! ### Inheritance resolution (commandclasses.py, Commandclass.__new__ and
_create_argument_list / _create_command_list)

A resolved commandclass records its class name, its normalized meta name, the
`hidden` meta flag, its resolved argument map (`__arguments__`), the
per-ancestor inherited-argument record (`__inherited_arguments__`), its
resolved subcommand map (`__commands__`, values are themselves resolved
commandclasses), and the per-ancestor inherited-subcommand record.  A base of
a declaration is either an already-resolved commandclass or a plain class
with its own attribute table, annotations, and bases. -/

inductive Resolved where
  | mk : String → String → Bool →
         List (String × Argument) →
         List (String × List (String × Argument)) →
         List (String × Resolved) →
         List (String × List (String × Resolved)) → Resolved

def Resolved.clsname : Resolved → String
  | .mk n _ _ _ _ _ _ => n

def Resolved.metaName : Resolved → String
  | .mk _ m _ _ _ _ _ => m

def Resolved.hidden : Resolved → Bool
  | .mk _ _ h _ _ _ _ => h

def Resolved.args : Resolved → List (String × Argument)
  | .mk _ _ _ a _ _ _ => a

def Resolved.inhArgs : Resolved → List (String × List (String × Argument))
  | .mk _ _ _ _ i _ _ => i

def Resolved.cmds : Resolved → List (String × Resolved)
  | .mk _ _ _ _ _ c _ => c

def Resolved.inhCmds : Resolved → List (String × List (String × Resolved))
  | .mk _ _ _ _ _ _ i => i

/-- A class attribute value, as seen by the metaclass: an Argument instance,
a (nested) commandclass, or anything else. -/
inductive PAttr where
  | argA : Argument → PAttr
  | cmdA : Resolved → PAttr
  | otherA : PAttr

/-- A base class: an already-created commandclass, or a plain class carrying
its directly-declared attributes, its annotations and its own bases. -/
inductive PyClass where
  | cc : Resolved → PyClass
  | plain : String → List (String × PAttr) → List (String × ArgType) →
            List PyClass → PyClass

mutual

/-- `for_each_base(bases, f, predicate=lambda c: not is_commandclass(c))`
with the default depth-first order: the list of classes `f` is applied to, in
order.  A commandclass base gates its subtree (its own bases are not
re-walked); a plain base contributes its own ancestry first, itself last. -/
def forEachBaseVisit : PyClass → List PyClass
  | .cc r => [.cc r]
  | .plain n attrs anns bases =>
      forEachBaseVisitList bases ++ [.plain n attrs anns bases]

def forEachBaseVisitList : List PyClass → List PyClass
  | [] => []
  | b :: bs => forEachBaseVisit b ++ forEachBaseVisitList bs

end

/-- The reserved, implicitly injected dryrun argument
(`argument(help=..., action='store_true')` with name and type assigned). -/
def dryrunArg : Argument :=
  { name := some (denormalize_name "--dryrun"),
    type := some ArgType.bool,
    help := some "echo input to stdout and exit",
    metaAction := some ActionKind.storeTrue }

/-- State threaded through `_create_argument_list`: the accumulating `args`
dict and the `inherited_args` record. -/
structure ArgState where
  args : List (String × Argument)
  inh : List (String × List (String × Argument))

/-- Record an inherited argument under its originating base's name
(`inherited_args[name][a_name] = a` on a defaultdict). -/
def addInh (inh : List (String × List (String × Argument)))
    (base a_name : String) (a : Argument) :
    List (String × List (String × Argument)) :=
  match lookupA base inh with
  | some m => setKey inh base (setKey m a_name a)
  | none => inh ++ [(base, [(a_name, a)])]

/-- One step of `process_arguments` for a visited base class.  For an
already-resolved commandclass the resolved map is reused; for a plain class
its directly-declared Argument attributes are scanned, assigning `name` and
`type` from the annotation table.  In both branches an entry is added only
when the name is not yet present (first write wins). -/
def processArgsOfBase (st : ArgState) (b : PyClass) : ArgState :=
  match b with
  | .cc r =>
      r.args.foldl
        (fun st p =>
          if containsKey p.1 st.args then st
          else { args := st.args ++ [(p.1, p.2)],
                 inh := addInh st.inh r.clsname p.1 p.2 }) st
  | .plain nm attrs anns _ =>
      attrs.foldl
        (fun st p =>
          match p.2 with
          | .argA a =>
              if containsKey p.1 st.args then st
              else
                let a' := { a with name := some p.1, type := lookupA p.1 anns }
                { args := st.args ++ [(p.1, a')],
                  inh := addInh st.inh nm p.1 a' }
          | _ => st) st

/-- `process_arguments(clsname, attrs.copy())` for the declaration's own
attributes (no inherited tagging); the same not-already-present guard
applies. -/
def processOwnArgs (st : ArgState) (attrs : List (String × PAttr))
    (anns : List (String × ArgType)) : ArgState :=
  attrs.foldl
    (fun st p =>
      match p.2 with
      | .argA a =>
          if containsKey p.1 st.args then st
          else
            { st with
              args := st.args ++ [(p.1, { a with name := some p.1,
                                                 type := lookupA p.1 anns })] }
      | _ => st) st

/-- `_create_argument_list`: inject dryrun, process every visited base class
in order, then the declaration's own attributes. -/
def create_argument_list (bases : List PyClass) (attrs : List (String × PAttr))
    (anns : List (String × ArgType)) : ArgState :=
  let st0 : ArgState := { args := [("dryrun", dryrunArg)], inh := [] }
  let st1 := (forEachBaseVisitList bases).foldl processArgsOfBase st0
  processOwnArgs st1 attrs anns

/-- State threaded through `_create_command_list`. -/
structure CmdState where
  cmds : List (String × Resolved)
  inh : List (String × List (String × Resolved))

def addInhCmd (inh : List (String × List (String × Resolved)))
    (base c_name : String) (c : Resolved) :
    List (String × List (String × Resolved)) :=
  match lookupA base inh with
  | some l => setKey inh base (l ++ [(c_name, c)])
  | none => inh ++ [(base, [(c_name, c)])]

/-- One step of `process_subcommands` for a visited base class.  Note there is
no not-already-present guard here: `cmds[c_name] = c` overwrites. -/
def processCmdsOfBase (st : CmdState) (b : PyClass) : CmdState :=
  match b with
  | .cc r =>
      r.cmds.foldl
        (fun st p =>
          { cmds := setKey st.cmds p.1 p.2,
            inh := addInhCmd st.inh r.clsname p.1 p.2 }) st
  | .plain nm attrs _ _ =>
      attrs.foldl
        (fun st p =>
          match p.2 with
          | .cmdA c =>
              { cmds := setKey st.cmds (normalize_name p.1) c,
                inh := addInhCmd st.inh nm p.1 c }
          | _ => st) st

/-- `process_subcommands(clsname, attrs.copy())` for the declaration's own
attributes: the child's entries overwrite anything inherited. -/
def processOwnCmds (st : CmdState) (attrs : List (String × PAttr)) : CmdState :=
  attrs.foldl
    (fun st p =>
      match p.2 with
      | .cmdA c => { st with cmds := setKey st.cmds (normalize_name p.1) c }
      | _ => st) st

/-- `_create_command_list`: base classes first, the declaration itself last. -/
def create_command_list (bases : List PyClass) (attrs : List (String × PAttr)) :
    CmdState :=
  let st0 : CmdState := { cmds := [], inh := [] }
  let st1 := (forEachBaseVisitList bases).foldl processCmdsOfBase st0
  processOwnCmds st1 attrs

/-- `Commandclass.__new__`: resolve arguments and subcommands and record the
normalized meta name (`denormalize_name(meta_args.get('name', clsname.lower()))`)
plus the `hidden` meta flag. -/
def mkCommandclass (clsname : String) (bases : List PyClass)
    (attrs : List (String × PAttr)) (anns : List (String × ArgType))
    (metaNameArg : Option String) (hidden : Bool) : Resolved :=
  let nm := denormalize_name (metaNameArg.getD clsname.toLower)
  let ast := create_argument_list bases attrs anns
  let cst := create_command_list bases attrs
  Resolved.mk clsname nm hidden ast.args ast.inh cst.cmds cst.inh

/-! ### Instance construction (Commandclass.__call__, inject_command_documentation,
inject_completions_command)

Instantiation injects a generated help subcommand (unless the declaration
already defines one) and then a hidden completions subcommand; both via
`add_to_commandclass`, i.e. dict assignment under the normalized name. -/

/-- The generated help commandclass (`Commandclass(typename(instance)+'Help', ...)`,
no explicit name or hidden meta). -/
def helpCmd (r : Resolved) : Resolved :=
  mkCommandclass (r.clsname ++ "Help") [] [] [] none false

/-- The generated completions commandclass
(`make_commandclass('Complete'+typename+'Command', [], name='completions', hidden=True)`). -/
def completionsCmd (r : Resolved) : Resolved :=
  mkCommandclass ("Complete" ++ r.clsname ++ "Command") [] [] []
    (some "completions") true

/-- `add_to_commandclass(instance, key=cmd)` for a subcommand change. -/
def add_cmd (r : Resolved) (k : String) (c : Resolved) : Resolved :=
  Resolved.mk r.clsname r.metaName r.hidden r.args r.inhArgs
    (setKey r.cmds (normalize_name k) c) r.inhCmds

/-- `Commandclass.__call__`: the instance view of a commandclass after the
help and completions injections have run. -/
def instantiate (r : Resolved) : Resolved :=
  let r1 := if containsKey "help" r.cmds then r else add_cmd r "help" (helpCmd r)
  add_cmd r1 "completions" (completionsCmd r)

/-- The token list emitted by the generated completions action: the names of
the non-hidden subcommands (in map order), then the long flags of the
`show_help` arguments (in map order). -/
def completionsTokens (r : Resolved) : List String :=
  (r.cmds.filter (fun p => !p.2.hidden)).map (fun p => p.1) ++
    (r.args.filter (fun p => p.2.show_help)).map
      (fun p => "--" ++ normalize_name p.1)

/-! ### Close-match suggestions (commandclasses.py, _default_parser)

`HelpfulArgumentParser._check_value` delegates the membership test to
argparse and, on failure, shows `difflib.get_close_matches(value,
action.choices)` before re-raising.  `difflib` is an external
standard-library collaborator; it is modelled here executably for short
strings (all inputs are far below the 200-element autojunk threshold, so no
element is junk).  Ratio comparisons against the 0.6 cutoff are done in exact
rational arithmetic (2*m/t is at least 3/5 iff 10*m is at least 3*t), which
agrees with the float comparison on the short strings involved. -/

/-- Number of occurrences of a character in a list. -/
def countChar (l : List Char) (c : Char) : Nat := l.countP (fun d => d == c)

/-- `SequenceMatcher.quick_ratio`'s matches count: the size of the multiset
intersection of the two character sequences. -/
def multisetMatches (a b : List Char) : Nat :=
  (a.dedup.map (fun c => min (countChar a c) (countChar b c))).sum

/-- A matching block: start in `a`, start in `b`, length. -/
structure SMatch where
  i : Nat
  j : Nat
  size : Nat
  deriving DecidableEq, Repr

/-- The dynamic-programming core of `SequenceMatcher.find_longest_match`:
for each position of `a` in `[alo, ahi)`, extend runs ending at each matching
position of `b` in `[blo, bhi)`; a strictly longer run replaces the best. -/
def flmCore (a b : List Char) (alo ahi blo bhi : Nat) : SMatch :=
  let step := fun (st : (Nat → Nat) × SMatch) (i : Nat) =>
    let j2len := st.1
    let js := (List.range' blo (bhi - blo)).filter
      (fun j => b.getD j ' ' == a.getD i ' ')
    js.foldl
      (fun (st2 : (Nat → Nat) × SMatch) (j : Nat) =>
        let k := if j = 0 then 1 else j2len (j - 1) + 1
        let newf := fun j' => if j' = j then k else st2.1 j'
        let best := st2.2
        let best' := if k > best.size then SMatch.mk (i + 1 - k) (j + 1 - k) k else best
        (newf, best'))
      ((fun _ => 0), st.2)
  ((List.range' alo (ahi - alo)).foldl step ((fun _ => 0), SMatch.mk alo blo 0)).2

/-- The backward extension loop of `find_longest_match` (with no junk
characters the two junk-related loops never fire); fuelled by `m.i`. -/
def flmExtendBack (a b : List Char) (alo blo : Nat) : Nat → SMatch → SMatch
  | 0, m => m
  | fuel + 1, m =>
      if alo < m.i ∧ blo < m.j ∧ a.getD (m.i - 1) ' ' == b.getD (m.j - 1) ' ' then
        flmExtendBack a b alo blo fuel (SMatch.mk (m.i - 1) (m.j - 1) (m.size + 1))
      else m

/-- The forward extension loop of `find_longest_match`; fuelled by `ahi`. -/
def flmExtendFwd (a b : List Char) (ahi bhi : Nat) : Nat → SMatch → SMatch
  | 0, m => m
  | fuel + 1, m =>
      if m.i + m.size < ahi ∧ m.j + m.size < bhi ∧
         a.getD (m.i + m.size) ' ' == b.getD (m.j + m.size) ' ' then
        flmExtendFwd a b ahi bhi fuel (SMatch.mk m.i m.j (m.size + 1))
      else m

/-- `SequenceMatcher.find_longest_match` on `[alo, ahi) x [blo, bhi)`. -/
def find_longest_match (a b : List Char) (alo ahi blo bhi : Nat) : SMatch :=
  flmExtendFwd a b ahi bhi ahi
    (flmExtendBack a b alo blo ahi (flmCore a b alo ahi blo bhi))

/-- Total size of all matching blocks (`get_matching_blocks` recursion;
only the total enters `ratio`, so block order and adjacent-block merging are
irrelevant).  Fuelled; `ahi + bhi + 1` fuel always suffices. -/
def matchTotal (a b : List Char) : Nat → Nat → Nat → Nat → Nat → Nat
  | 0, _, _, _, _ => 0
  | fuel + 1, alo, ahi, blo, bhi =>
      let m := find_longest_match a b alo ahi blo bhi
      if m.size = 0 then 0
      else
        (if alo < m.i ∧ blo < m.j then matchTotal a b fuel alo m.i blo m.j else 0)
          + m.size +
        (if m.i + m.size < ahi ∧ m.j + m.size < bhi then
           matchTotal a b fuel (m.i + m.size) ahi (m.j + m.size) bhi
         else 0)

/-- Total matched characters between two full sequences (the `ratio`
numerator halved). -/
def smTotalMatches (a b : List Char) : Nat :=
  matchTotal a b (a.length + b.length + 1) 0 a.length 0 b.length

/-- Descending (score, string) comparison used by `_nlargest` on
`(ratio, x)` tuples; scores `(m, t)` denote the rational `2*m/t`. -/
def scoreLe (p q : (Nat × Nat) × String) : Bool :=
  if p.1.1 * q.1.2 = q.1.1 * p.1.2 then decide (p.2 ≤ q.2)
  else decide (p.1.1 * q.1.2 < q.1.1 * p.1.2)

def insertDesc (x : (Nat × Nat) × String) :
    List ((Nat × Nat) × String) → List ((Nat × Nat) × String)
  | [] => [x]
  | y :: ys => if scoreLe x y then y :: insertDesc x ys else x :: y :: ys

def sortDesc (l : List ((Nat × Nat) × String)) : List ((Nat × Nat) × String) :=
  l.foldr insertDesc []

/-- `difflib.get_close_matches(word, possibilities)` with the default
`n=3`, `cutoff=0.6`: keep the possibilities whose `real_quick_ratio`,
`quick_ratio` and `ratio` all reach the cutoff, best matches first. -/
def get_close_matches (word : String) (possibilities : List String) :
    List String :=
  let b := word.toList
  let scored := possibilities.filterMap (fun x =>
    let a := x.toList
    let t := a.length + b.length
    if 3 * t ≤ 10 * min a.length b.length ∧
       3 * t ≤ 10 * multisetMatches a b ∧
       3 * t ≤ 10 * smTotalMatches a b then
      some ((smTotalMatches a b, t), x)
    else none)
  ((sortDesc scored).take 3).map (fun p => p.2)

/-- `HelpfulArgumentParser._show_closest_matches` (the suggestion list it
prints when non-empty). -/
def show_closest_matches (choices : List String) (value : String) : List String :=
  get_close_matches value choices

/-- `HelpfulArgumentParser._check_value`: delegate the choice-membership test,
and on failure report the closest matches, then re-raise (the error always
propagates; the suggestion list rides along with it). -/
def check_value (choices : List String) (value : String) :
    Except (List String) Unit :=
  if value ∈ choices then Except.ok ()
  else Except.error (show_closest_matches choices value)

/-! ### Parse and dispatch (commandclasses.py, _create_parser_hooks /
_create_call_method / _subcommand_action)

A Command Node models an *instance* of a commandclass at invocation time: its
name, its resolved argument map, its subcommand map (mapping selector token to
child node), its scanner, and its post-parse hook.  The scanner abstracts the
argparse parser built by `create_parser` (an external collaborator): from the
token list it produces the parsed own-argument values, the optional selector
token consumed by the `subcommand` positional, and the leftover tokens.
`call` is the generated `__call__`; it returns the trace of observable events
in order, plus the outcome. -/

structure ScanRes where
  selector : Option String
  parsed : List (String × Value)
  leftover : List String

inductive Node where
  | mk : String → List (String × Argument) → List (String × Node) →
         (List String → ScanRes) → (InstMap → InstMap) → Node

def Node.name : Node → String
  | .mk n _ _ _ _ => n

def Node.args : Node → List (String × Argument)
  | .mk _ a _ _ _ => a

def Node.subs : Node → List (String × Node)
  | .mk _ _ s _ _ => s

def Node.scan : Node → List String → ScanRes
  | .mk _ _ _ f _ => f

def Node.afterParse : Node → InstMap → InstMap
  | .mk _ _ _ _ h => h

/-- The instance attribute table after `set_parsed_attrs`: parsed values,
`None` (i.e. `none`) for everything else (all declared argument attributes
are initialised to `None`). -/
def mkInst (parsed : List (String × Value)) : InstMap :=
  fun k => lookupA k parsed

/-- `as_dict(instance)`: the resolved argument names paired with the
instance's current values. -/
def as_dict (args : List (String × Argument)) (inst : InstMap) :
    List (String × Option Value) :=
  args.map (fun p => (p.1, inst p.1))

/-- `{**kwargs, **parsed}`: the parsed values override the ancestor map. -/
def mergeKw (kwargs parsed : List (String × Value)) : List (String × Value) :=
  parsed.foldl (fun m p => setKey m p.1 p.2) kwargs

inductive Event where
  | parsedEv : String → List (String × Value) → List String → Event
  | afterParseEv : String → Event
  | beforeCallEv : String → Event
  | instantiatedEv : String → Event
  | echoEv : String → List String → List (String × Value) →
             List (String × Option Value) → Event
  | actionEv : String → List String → List (String × Value) →
               List (String × Option Value) → Event
  deriving DecidableEq, Repr

inductive Outcome where
  | done | invalidArgs | scanError | fuelOut
  deriving DecidableEq, Repr

/-- The leaf part of the generated `__call__` (the `f is user_call` branch):
run the pre-dispatch validation hook (`before_call`, i.e. the requirement
checker) first; on failure the aggregate exception propagates.  On success,
if the instance's own dryrun attribute or the ancestor keyword map's dryrun
entry is truthy, only echo the leftover tokens, the ancestor keyword map and
`as_dict(self)` and return; otherwise invoke the user action with the
leftover tokens and the ancestor keyword map. -/
def leafStep (n : Node) (inst : InstMap) (leftover : List String)
    (kwargs : List (String × Value)) : List Event × Outcome :=
  match (check_required_arguments (n.args.map (fun p => p.2)) inst).2 with
  | Except.error _ => ([], Outcome.invalidArgs)
  | Except.ok _ =>
      if truthyO (inst "dryrun") || truthyO (lookupA "dryrun" kwargs) then
        ([Event.echoEv n.name leftover kwargs (as_dict n.args inst)],
         Outcome.done)
      else
        ([Event.actionEv n.name leftover kwargs (as_dict n.args inst)],
         Outcome.done)

/-- The generated `__call__` method (`call` inside `_create_call_method`),
one dispatch level per unit of fuel.

Parsing records only the selected subcommand's class; when the selector names
no resolved subcommand the argparse choice check fails during parsing (no
hook runs, nothing is instantiated).  Otherwise the post-parse hook runs;
with a selector present the selected class is instantiated only now and its
`__call__` receives the leftover tokens and `{**kwargs, **parsed}`.  With no
selector this node is the leaf and `leafStep` runs after the
`beforeCallEv` validation event. -/
def call : Nat → Node → List String → List (String × Value) →
    List Event × Outcome
  | 0, _, _, _ => ([], Outcome.fuelOut)
  | fuel + 1, n, tokens, kwargs =>
    let sr := n.scan tokens
    match sr.selector with
    | some s =>
        match lookupA s n.subs with
        | none => ([], Outcome.scanError)
        | some child =>
            let res := call fuel child sr.leftover (mergeKw kwargs sr.parsed)
            (Event.parsedEv n.name sr.parsed sr.leftover
              :: Event.afterParseEv n.name
              :: Event.instantiatedEv child.name :: res.1,
             res.2)
    | none =>
        let inst := n.afterParse (mkInst sr.parsed)
        let res := leafStep n inst sr.leftover kwargs
        (Event.parsedEv n.name sr.parsed sr.leftover
          :: Event.afterParseEv n.name
          :: Event.beforeCallEv n.name :: res.1,
         res.2)

/-- Validation and leaf-only events. -/
def isBeforeCallEv : Event → Bool
  | .beforeCallEv _ => true
  | _ => false

def isTerminalEv : Event → Bool
  | .echoEv _ _ _ _ => true
  | .actionEv _ _ _ _ => true
  | _ => false

def isActionEv : Event → Bool
  | .actionEv _ _ _ _ => true
  | _ => false

/-- No parsing, hook, or instantiation event ever follows a validation event:
after the first `beforeCallEv` only leaf echo/action events may occur. -/
def postValidationOnly : List Event → Bool
  | [] => true
  | e :: rest =>
      if isBeforeCallEv e then rest.all isTerminalEv else postValidationOnly rest

/-! ### Concrete declarations used by the claim theorems, counterexamples and
witnesses -/

/-- Base declares argument x with help "from base". -/
def c1xBase : Argument := { help := some "from base" }

/-- Mid redeclares argument x with help "from mid". -/
def c1xMid : Argument := { help := some "from mid" }

def c1Base : Resolved :=
  mkCommandclass "Base" [] [("x", PAttr.argA c1xBase)] [("x", ArgType.str)] none false

def c1Mid : Resolved :=
  mkCommandclass "Mid" [PyClass.cc c1Base] [("x", PAttr.argA c1xMid)]
    [("x", ArgType.str)] none false

def c1Leaf : Resolved :=
  mkCommandclass "Leaf" [PyClass.cc c1Mid] [] [] none false

/-- The two-direct-base declaration shape of claim C2: B1 declares argument x
and subcommands s and t, B2 declares arguments x and y and subcommand s, the
child declares argument x and subcommand t. -/
def c2B1 (xb1 : Argument) (s1 t1 : Resolved) : Resolved :=
  mkCommandclass "B1" []
    [("x", PAttr.argA xb1), ("s", PAttr.cmdA s1), ("t", PAttr.cmdA t1)]
    [("x", ArgType.str)] none false

def c2B2 (xb2 yb2 : Argument) (s2 : Resolved) : Resolved :=
  mkCommandclass "B2" []
    [("x", PAttr.argA xb2), ("y", PAttr.argA yb2), ("s", PAttr.cmdA s2)]
    [("x", ArgType.str)] none false

def c2Child (xb1 xb2 yb2 xc : Argument) (s1 t1 s2 t2 : Resolved) : Resolved :=
  mkCommandclass "Child"
    [PyClass.cc (c2B1 xb1 s1 t1), PyClass.cc (c2B2 xb2 yb2 s2)]
    [("x", PAttr.argA xc), ("t", PAttr.cmdA t2)]
    [("x", ArgType.str)] none false

def c2xB1 : Argument := { help := some "from B1" }
def c2xB2 : Argument := { help := some "from B2" }
def c2yB2 : Argument := { help := some "y from B2" }
def c2xChild : Argument := { help := some "from child" }
def c2S1 : Resolved := mkCommandclass "S1" [] [] [] none false
def c2S2 : Resolved := mkCommandclass "S2" [] [] [] none false
def c2T1 : Resolved := mkCommandclass "T1" [] [] [] none false
def c2T2 : Resolved := mkCommandclass "T2" [] [] [] none false

/-- A self-declared dryrun argument, distinct from the injected one. -/
def c3CustomDryrun : Argument := { help := some "my own dryrun" }

def c3Decl : Resolved :=
  mkCommandclass "C3Cmd" [] [("dryrun", PAttr.argA c3CustomDryrun)] [] none false

/-- A declaration with one subcommand whose name sorts after "help": the
injected help lands after it in map order, so the completion listing is not
name-sorted. -/
def c9Zeta : Resolved := mkCommandclass "Zeta" [] [] [] none false

def c9Root : Resolved :=
  mkCommandclass "Root" [] [("zeta", PAttr.cmdA c9Zeta)] [] none false

/-- A boolean argument whose `meta_args` pass an explicit `action`. -/
def c10WithAction : Argument :=
  { name := some "x", type := some ArgType.bool,
    metaAction := some ActionKind.append }

/-- An ordinary invertible boolean argument. -/
def c10Verbose : Argument := { name := some "verbose", type := some ArgType.bool }

/-- A required argument that was not parsed. -/
def c4ReqArg : Argument := { name := some "required", required := true }

/-- An instance on which nothing was parsed. -/
def c4NoneInst : InstMap := fun _ => none

/-- A leaf node: scanning consumes no selector, parses dryrun as true, and
leaves all tokens over; the post-parse hook is a no-op. -/
def sampleLeafNode : Node :=
  Node.mk "leaf" [("dryrun", dryrunArg)] []
    (fun toks => ScanRes.mk none [("dryrun", Value.vbool true)] toks)
    (fun i => i)

/-- A root node with one subcommand: scanning consumes the selector token
"sub" and passes the rest through. -/
def sampleRootNode : Node :=
  Node.mk "root" [("dryrun", dryrunArg)] [("sub", sampleLeafNode)]
    (fun toks => ScanRes.mk (some "sub") [] (toks.drop 1))
    (fun i => i)

/-! ## Theorems -/

/-! ### Shared helper lemmas about association lists and folds -/

theorem lookupA_append_left {α : Type} {k : String} {l : List (String × α)} {v : α}
    (h : lookupA k l = some v) (l' : List (String × α)) :
    lookupA k (l ++ l') = some v := by
  induction l with
  | nil => simp [lookupA] at h
  | cons p rest ih =>
      obtain ⟨k', v'⟩ := p
      by_cases hk : k' = k
      · simp [lookupA, hk] at h ⊢; exact h
      · simp [lookupA, hk] at h ⊢; exact ih h

theorem lookupA_setKey_self {α : Type} (m : List (String × α)) (k : String) (v : α) :
    lookupA k (setKey m k v) = some v := by
  induction m with
  | nil => simp [setKey, lookupA]
  | cons p rest ih =>
      obtain ⟨k', v'⟩ := p
      by_cases hk : k' = k
      · simp [setKey, hk, lookupA]
      · simp [setKey, hk, lookupA, ih]

theorem lookupA_setKey_other {α : Type} (m : List (String × α)) (k k' : String) (v : α)
    (h : k' ≠ k) : lookupA k (setKey m k' v) = lookupA k m := by
  induction m with
  | nil => simp [setKey, lookupA, h]
  | cons p rest ih =>
      obtain ⟨k'', v''⟩ := p
      by_cases hk : k'' = k'
      · subst hk; simp [setKey, lookupA, h]
      · simp [setKey, hk, lookupA]
        by_cases hk2 : k'' = k
        · simp [hk2]
        · simp [hk2, ih]

theorem foldl_invariant {α β : Type} (P : α → Prop) (f : α → β → α)
    (step : ∀ a b, P a → P (f a b)) :
    ∀ (l : List β) (a : α), P a → P (l.foldl f a) := by
  intro l
  induction l with
  | nil => intro a ha; simpa using ha
  | cons x xs ih => intro a ha; exact ih (f a x) (step a x ha)


theorem processArgsOfBase_keeps (k : String) (v : Argument) (st : ArgState)
    (b : PyClass) (h : lookupA k st.args = some v) :
    lookupA k (processArgsOfBase st b).args = some v := by
  cases b with
  | cc r =>
      simp only [processArgsOfBase]
      refine foldl_invariant (fun s : ArgState => lookupA k s.args = some v)
        _ ?_ r.args st h
      intro s p hp
      by_cases hc : containsKey p.1 s.args
      · simpa [hc] using hp
      · simpa [hc] using lookupA_append_left hp _
  | plain nm attrs anns bs =>
      simp only [processArgsOfBase]
      refine foldl_invariant (fun s : ArgState => lookupA k s.args = some v)
        _ ?_ attrs st h
      intro s p hp
      rcases p with ⟨pk, pa⟩
      cases pa with
      | argA a =>
          by_cases hc : containsKey pk s.args
          · simpa [hc] using hp
          · simpa [hc] using lookupA_append_left hp _
      | cmdA c => simpa using hp
      | otherA => simpa using hp

theorem processOwnArgs_keeps (k : String) (v : Argument) (st : ArgState)
    (attrs : List (String × PAttr)) (anns : List (String × ArgType))
    (h : lookupA k st.args = some v) :
    lookupA k (processOwnArgs st attrs anns).args = some v := by
  simp only [processOwnArgs]
  refine foldl_invariant (fun s : ArgState => lookupA k s.args = some v)
    _ ?_ attrs st h
  intro s p hp
  rcases p with ⟨pk, pa⟩
  cases pa with
  | argA a =>
      by_cases hc : containsKey pk s.args
      · simpa [hc] using hp
      · simpa [hc] using lookupA_append_left hp _
  | cmdA c => simpa using hp
  | otherA => simpa using hp

/-! ### C1 -/

/-- Claim C1 (code behavior at the failing input): for the chain
Base declares x, Mid redeclares x, Leaf inherits — the own-declaration pass
of the resolver also carries the not-already-present guard, so Mid's resolved
map (and hence Leaf's) keeps Base's descriptor for x, not Mid's, contrary to
the claim and to the resolver's own source comment that the declaration's own
arguments take precedence. -/
theorem claim_C1_code_behavior :
    (lookupA "x" c1Leaf.args).map Argument.help = some c1xBase.help
    ∧ (lookupA "x" c1Mid.args).map Argument.help = some c1xBase.help
    ∧ c1xBase.help ≠ c1xMid.help :=
  ⟨rfl, rfl, by decide⟩

/-! ### C2 -/

/-- Counterexample to claim C2 as stated: with two direct bases B1 and B2
both declaring subcommand s, the resolved subcommand map keeps B2's entry
(the last ancestor processed), not B1's as the claim requires; and the
child's self-declared argument x does not win — B1's descriptor is kept. -/
theorem claim_C2_counterexample :
    (lookupA "s" (c2Child c2xB1 c2xB2 c2yB2 c2xChild c2S1 c2T1 c2S2 c2T2).cmds).map
        Resolved.clsname = some "S2"
    ∧ (lookupA "x" (c2Child c2xB1 c2xB2 c2yB2 c2xChild c2S1 c2T1 c2S2 c2T2).args).map
        Argument.help = some (some "from B1")
    ∧ ("S2" : String) ≠ "S1"
    ∧ (some "from B1" : Option String) ≠ some "from child" :=
  ⟨rfl, rfl, by decide, by decide⟩

/-- Claim C2 as amended: for the resolved argument map the first ancestor
processed wins and this extends to the child itself (a self-declared argument
does not replace an inherited one of the same name); for the resolved
subcommand map the last write wins: a later-declared ancestor's subcommand
replaces an earlier one's, and the child's own subcommand replaces any
ancestor's.  Stated for arbitrary descriptors over the two-base shape. -/
theorem claim_C2_amended (xb1 xb2 yb2 xc : Argument) (s1 t1 s2 t2 : Resolved) :
    lookupA "x" (c2Child xb1 xb2 yb2 xc s1 t1 s2 t2).args
      = some { xb1 with name := some "x", type := some ArgType.str }
    ∧ lookupA "y" (c2Child xb1 xb2 yb2 xc s1 t1 s2 t2).args
      = some { yb2 with name := some "y", type := none }
    ∧ lookupA "s" (c2Child xb1 xb2 yb2 xc s1 t1 s2 t2).cmds = some s2
    ∧ lookupA "t" (c2Child xb1 xb2 yb2 xc s1 t1 s2 t2).cmds = some t2 :=
  ⟨rfl, rfl, rfl, rfl⟩

/-! ### C3 -/

/-- Counterexample to claim C3 as stated: a self-declared dryrun argument
does not shadow the injected one — the resolved map keeps the injected
descriptor (the own-declaration pass skips names already present, and dryrun
is injected first). -/
theorem claim_C3_counterexample :
    (lookupA "dryrun" c3Decl.args).map Argument.help = some dryrunArg.help
    ∧ dryrunArg.help ≠ c3CustomDryrun.help :=
  ⟨rfl, by decide⟩

/-- Claim C3 as amended: the reserved boolean dryrun argument is injected
before any ancestor or own-declaration processing and is present in every
resolved argument map; no later declaration (inherited or self-declared)
ever replaces it, so the resolved entry is always exactly the injected
descriptor. -/
theorem claim_C3_amended (clsname : String) (bases : List PyClass)
    (attrs : List (String × PAttr)) (anns : List (String × ArgType))
    (metaNameArg : Option String) (hidden : Bool) :
    lookupA "dryrun"
        (mkCommandclass clsname bases attrs anns metaNameArg hidden).args
      = some dryrunArg := by
  have h0 : lookupA "dryrun" ([("dryrun", dryrunArg)] : List (String × Argument))
      = some dryrunArg := by simp [lookupA]
  have h1 : lookupA "dryrun"
      (((forEachBaseVisitList bases).foldl processArgsOfBase
        ⟨[("dryrun", dryrunArg)], []⟩).args) = some dryrunArg :=
    foldl_invariant (fun s : ArgState => lookupA "dryrun" s.args = some dryrunArg)
      processArgsOfBase (fun s b hp => processArgsOfBase_keeps "dryrun" dryrunArg s b hp)
      (forEachBaseVisitList bases) ⟨[("dryrun", dryrunArg)], []⟩ h0
  have h2 := processOwnArgs_keeps "dryrun" dryrunArg _ attrs anns h1
  simpa [mkCommandclass, create_argument_list, Resolved.args] using h2

/-! ### C9 -/

/-- Counterexample to claim C9 as stated: the completions listing follows the
resolved-map insertion order, not sorted-name order — with a declared
subcommand zeta and the injected help, the emitted tokens are
zeta, help, --dryrun rather than the sorted help, zeta, --dryrun. -/
theorem claim_C9_counterexample :
    completionsTokens (instantiate c9Root) = ["zeta", "help", "--dryrun"]
    ∧ (["zeta", "help", "--dryrun"] : List String) ≠ ["help", "zeta", "--dryrun"] :=
  ⟨rfl, by decide⟩

/-- Claim C9 as amended: every instantiated command node receives the
synthesized completions subcommand (hidden, under the reserved name
completions), the synthesized help subcommand is installed exactly when the
declaration does not already define one (an existing help entry is kept
untouched), and the completions action emits the non-hidden subcommand names
followed by the show_help argument flags in resolved-map insertion order
(not sorted order). -/
theorem claim_C9_amended (r : Resolved) :
    lookupA "completions" (instantiate r).cmds = some (completionsCmd r)
    ∧ (completionsCmd r).hidden = true
    ∧ (completionsCmd r).metaName = "completions"
    ∧ (containsKey "help" r.cmds = false →
        lookupA "help" (instantiate r).cmds = some (helpCmd r))
    ∧ (containsKey "help" r.cmds = true →
        lookupA "help" (instantiate r).cmds = lookupA "help" r.cmds) := by
  have hnc : normalize_name "completions" = "completions" := rfl
  have hnh : normalize_name "help" = "help" := rfl
  have hne : ("completions" : String) ≠ "help" := by decide
  obtain ⟨cn, mn, hd, ar, ia, cm, ic⟩ := r
  refine ⟨?_, rfl, rfl, ?_, ?_⟩
  · by_cases hh : containsKey "help" cm
    · simp [instantiate, Resolved.cmds, hh, add_cmd, hnc, lookupA_setKey_self]
    · simp [instantiate, Resolved.cmds, hh, add_cmd, hnc, lookupA_setKey_self]
  · intro hh
    simp only [Resolved.cmds] at hh
    simp [instantiate, Resolved.cmds, hh, add_cmd, hnc, hnh,
      lookupA_setKey_other _ _ _ _ hne, lookupA_setKey_self]
  · intro hh
    simp only [Resolved.cmds] at hh
    simp [instantiate, Resolved.cmds, hh, add_cmd, hnc,
      lookupA_setKey_other _ _ _ _ hne]

/-- Witness for claim C9's amended theorem at a concrete declaration: the
help command is injected for a declaration without one, and the completions
command is present. -/
theorem claim_C9_witness :
    lookupA "help" (instantiate c9Root).cmds = some (helpCmd c9Root)
    ∧ lookupA "completions" (instantiate c9Root).cmds = some (completionsCmd c9Root) :=
  ⟨(claim_C9_amended c9Root).2.2.2.1 (by decide), (claim_C9_amended c9Root).1⟩

/-! ### C4 -/

theorem mem_foldr_append {β : Type} :
    ∀ (results : List (Bool × List β)) (r : Bool × List β), r ∈ results →
      ∀ x, x ∈ r.2 → x ∈ results.foldr (fun r acc => r.2 ++ acc) [] := by
  intro results
  induction results with
  | nil => intro r hr; simp at hr
  | cons b bs ih =>
      intro r hr x hx
      rcases List.mem_cons.mp hr with rfl | hr'
      · exact List.mem_append_left _ hx
      · exact List.mem_append_right _ (ih r hr' x hx)

/-- Claim C4: for every resolved argument of a leaf instance, the requirement
checker flags it exactly when (set and illegal_when holds) or (unset and
required) or (unset and required_when holds); an unset argument that is both
required and required_when contributes two messages; every flagged argument's
messages appear in the aggregated output (all arguments are scanned); the
aggregate invalid-argument failure is raised iff at least one argument was
flagged, and nothing is raised otherwise. -/
theorem claim_C4 (args : List Argument) (inst : InstMap) :
    (∀ a, a ∈ args →
      ((check_requirement a inst).1 = true ↔
        ((inst (argName a)).isSome = true ∧ predHolds a.illegal_when inst = true)
        ∨ (inst (argName a) = none ∧
            (a.required = true ∨ predHolds a.required_when inst = true))))
    ∧ (∀ a, a ∈ args → inst (argName a) = none → a.required = true →
        predHolds a.required_when inst = true →
        (check_requirement a inst).2.length = 2)
    ∧ (∀ a, a ∈ args → ∀ m, m ∈ (check_requirement a inst).2 →
        m ∈ (check_required_arguments args inst).1)
    ∧ ((check_required_arguments args inst).2
        = Except.error "invalid argument(s) given to command"
        ↔ ∃ a, a ∈ args ∧ (check_requirement a inst).1 = true)
    ∧ ((¬ ∃ a, a ∈ args ∧ (check_requirement a inst).1 = true) →
        (check_required_arguments args inst).2 = Except.ok ()) := by
  have hany : ((args.map (fun a => check_requirement a inst)).any (fun r => r.1) = true)
      ↔ ∃ a, a ∈ args ∧ (check_requirement a inst).1 = true := by
    simp [List.any_eq_true]
  refine ⟨?_, ?_, ?_, ?_, ?_⟩
  · intro a _
    by_cases hp : (inst (argName a)).isSome = true
    · have hne : inst (argName a) ≠ none := by
        intro hnone; rw [hnone] at hp; simp at hp
      by_cases hil : predHolds a.illegal_when inst
      · simp [check_requirement, hp, check_requirements_when_present, hil]
      · simp [check_requirement, hp, check_requirements_when_present, hil, hne]
    · have hnone : inst (argName a) = none := by
        cases h : inst (argName a)
        · rfl
        · rw [h] at hp; simp at hp
      cases hr : a.required <;>
        cases hw : predHolds a.required_when inst <;>
          simp [check_requirement, hnone, check_requirements_when_missing, hr, hw]
  · intro a _ h1 h2 h3
    simp [check_requirement, h1, check_requirements_when_missing, h2, h3]
  · intro a ha m hm
    have hmem : check_requirement a inst ∈ args.map (fun a => check_requirement a inst) :=
      List.mem_map_of_mem _ ha
    simpa [check_required_arguments] using
      mem_foldr_append _ _ hmem m hm
  · by_cases h : (args.map (fun a => check_requirement a inst)).any (fun r => r.1)
    · simp [check_required_arguments, h, hany.mp h]
    · have hno := (not_iff_not.mpr hany).mp h
      simp [check_required_arguments, h, hno]
  · intro h
    have hfalse : ((args.map (fun a => check_requirement a inst)).any (fun r => r.1)) = false := by
      by_contra hcon
      exact h (hany.mp (by simpa using hcon))
    simp [check_required_arguments, hfalse]

/-- Witness for claim C4 at a concrete input: a required, unparsed argument
is flagged and the aggregate failure is raised. -/
theorem claim_C4_witness :
    (check_requirement c4ReqArg c4NoneInst).1 = true
    ∧ (check_required_arguments [c4ReqArg] c4NoneInst).2
        = Except.error "invalid argument(s) given to command" := by
  have h := claim_C4 [c4ReqArg] c4NoneInst
  have hflag : (check_requirement c4ReqArg c4NoneInst).1 = true :=
    (h.1 c4ReqArg (by simp)).mpr (Or.inr ⟨rfl, Or.inl rfl⟩)
  exact ⟨hflag, h.2.2.2.1.mpr ⟨c4ReqArg, by simp, hflag⟩⟩

/-! ### C8 -/

/-- Claim C8: whenever the value does not name any resolved choice, the
choice check fails (the error is re-raised, never swallowed) and the failure
carries the difflib close-match suggestions; in particular the token
foocmmand against choices containing foocommand yields the suggestion list
containing exactly foocommand. -/
theorem claim_C8 (choices : List String) (value : String)
    (h : value ∉ choices) :
    check_value choices value = Except.error (get_close_matches value choices)
    ∧ get_close_matches "foocmmand" ["foocommand", "help", "completions"]
      = ["foocommand"] := by
  constructor
  · simp [check_value, show_closest_matches, h]
  · rfl

/-- Witness for claim C8 at the concrete near-miss token. -/
theorem claim_C8_witness :
    check_value ["foocommand", "help", "completions"] "foocmmand"
      = Except.error ["foocommand"] := by
  have h := claim_C8 ["foocommand", "help", "completions"] "foocmmand" (by decide)
  rw [h.1, h.2]

/-! ### C10 -/

/-- Counterexample to claim C10 as stated: a boolean, inversion-allowed
argument whose extra parser keywords carry an explicit action does get the
mutually exclusive pair, but the plain flag's action is the explicit one
(setdefault semantics), not store_true as the claim requires. -/
theorem claim_C10_counterexample :
    Argument.add_to c10WithAction = ParserAdd.exclusiveGroup
      { flags := ["--x"], action := some ActionKind.append,
        dest := some "x", default := none }
      { flags := ["--no-x"], action := some ActionKind.storeFalse,
        dest := some "x", default := none }
    ∧ (some ActionKind.append : Option ActionKind) ≠ some ActionKind.storeTrue :=
  ⟨by decide, by decide⟩

/-- Claim C10 as amended: an argument is invertible exactly when its type is
bool, allow_inverse holds and its name does not start with "no"; for an
invertible argument the parser receives a mutually exclusive pair --name
(plus aliases) and --no-name sharing one destination, where --no-name always
stores false and --name's action defaults to store_true but an explicit
action in the extra parser keywords overrides it; otherwise a single option
--name (plus aliases) is added. -/
theorem claim_C10_amended (a : Argument) :
    a.invertible
      = (a.type == some ArgType.bool && a.allow_inverse
          && !(py_startswith (argName a) "no"))
    ∧ (a.invertible = true →
        a.add_to = ParserAdd.exclusiveGroup
          { flags := ("--" ++ normalize_name (argName a)) :: a.aliases,
            action := some (a.metaAction.getD ActionKind.storeTrue),
            dest := some (a.metaDest.getD (argName a)),
            default := effectiveDefault a }
          { flags := ["--no-" ++ normalize_name (argName a)],
            action := some ActionKind.storeFalse,
            dest := some (a.metaDest.getD (argName a)),
            default := effectiveDefault a })
    ∧ (a.invertible = false →
        a.add_to = ParserAdd.single
          { flags := ("--" ++ normalize_name (argName a)) :: a.aliases,
            action := effectiveAction a, dest := a.metaDest,
            default := effectiveDefault a }) := by
  refine ⟨rfl, ?_, ?_⟩
  · intro h
    have htype : (a.type == some ArgType.bool) = true := by
      simp only [Argument.invertible, Bool.and_eq_true] at h
      exact h.1.1
    simp [Argument.add_to, h, effectiveAction, htype]
  · intro h
    simp [Argument.add_to, h]

/-- Witness for claim C10's amended theorem at an ordinary invertible
boolean argument. -/
theorem claim_C10_witness :
    Argument.add_to c10Verbose = ParserAdd.exclusiveGroup
      { flags := ["--verbose"], action := some ActionKind.storeTrue,
        dest := some "verbose", default := none }
      { flags := ["--no-verbose"], action := some ActionKind.storeFalse,
        dest := some "verbose", default := none } := by
  have h := (claim_C10_amended c10Verbose).2.1 (by decide)
  rw [h]
  decide

/-! ### Dispatch-trace lemmas shared by C5, C6, C7 -/

theorem leafStep_all_terminal (n : Node) (inst : InstMap) (leftover : List String)
    (kwargs : List (String × Value)) :
    (leafStep n inst leftover kwargs).1.all isTerminalEv = true := by
  unfold leafStep
  cases (check_required_arguments (n.args.map (fun p => p.2)) inst).2 with
  | error e => simp
  | ok u =>
      by_cases hd : (truthyO (inst "dryrun") || truthyO (lookupA "dryrun" kwargs)) = true
      · simp [hd, isTerminalEv]
      · simp [hd, isTerminalEv]

theorem leafStep_no_beforeCall (n : Node) (inst : InstMap) (leftover : List String)
    (kwargs : List (String × Value)) :
    (leafStep n inst leftover kwargs).1.countP isBeforeCallEv = 0 := by
  unfold leafStep
  cases (check_required_arguments (n.args.map (fun p => p.2)) inst).2 with
  | error e => simp
  | ok u =>
      by_cases hd : (truthyO (inst "dryrun") || truthyO (lookupA "dryrun" kwargs)) = true
      · simp [hd, isBeforeCallEv]
      · simp [hd, isBeforeCallEv]

theorem call_postValidationOnly (fuel : Nat) :
    ∀ (n : Node) (tokens : List String) (kwargs : List (String × Value)),
      postValidationOnly (call fuel n tokens kwargs).1 = true := by
  induction fuel with
  | zero => intro n tokens kwargs; rfl
  | succ fuel ih =>
      intro n tokens kwargs
      rcases hE : n.scan tokens with ⟨sel, parsed, leftover⟩
      cases sel with
      | some s =>
          cases hc : lookupA s n.subs with
          | none => simp [call, hE, hc, postValidationOnly]
          | some child =>
              simp only [call, hE, hc]
              simp only [postValidationOnly, isBeforeCallEv, if_false, Bool.false_eq_true,
                ite_false]
              exact ih child leftover (mergeKw kwargs parsed)
      | none =>
          simp only [call, hE]
          simp [postValidationOnly, isBeforeCallEv, leafStep_all_terminal]

theorem call_beforeCall_count (fuel : Nat) :
    ∀ (n : Node) (tokens : List String) (kwargs : List (String × Value)),
      ((call fuel n tokens kwargs).2 = Outcome.done
        ∨ (call fuel n tokens kwargs).2 = Outcome.invalidArgs) →
      (call fuel n tokens kwargs).1.countP isBeforeCallEv = 1 := by
  induction fuel with
  | zero =>
      intro n tokens kwargs h
      rcases h with h | h <;> simp [call] at h
  | succ fuel ih =>
      intro n tokens kwargs h
      rcases hE : n.scan tokens with ⟨sel, parsed, leftover⟩
      cases sel with
      | some s =>
          cases hc : lookupA s n.subs with
          | none =>
              rcases h with h | h <;> simp [call, hE, hc] at h
          | some child =>
              have houtcome : (call (fuel + 1) n tokens kwargs).2
                  = (call fuel child leftover (mergeKw kwargs parsed)).2 := by
                simp [call, hE, hc]
              rw [houtcome] at h
              simp only [call, hE, hc]
              simp [isBeforeCallEv, List.countP_cons]
              exact ih child leftover (mergeKw kwargs parsed) h
      | none =>
          simp only [call, hE]
          simp [isBeforeCallEv, List.countP_cons, leafStep_no_beforeCall]

/-! ### C5 -/

/-- Claim C5: the pre-dispatch validation hook runs only at the leaf of an
invocation's dispatch path, never at interior nodes: after the validation
event only leaf echo/action events may occur (no further parse, post-parse
hook, or instantiation), and whenever an invocation completes (normally or
with the aggregate validation failure) exactly one validation event was
emitted — at the final node, the one that selected no subcommand. -/
theorem claim_C5 (fuel : Nat) (n : Node) (tokens : List String)
    (kwargs : List (String × Value)) :
    postValidationOnly (call fuel n tokens kwargs).1 = true
    ∧ (((call fuel n tokens kwargs).2 = Outcome.done
        ∨ (call fuel n tokens kwargs).2 = Outcome.invalidArgs) →
       (call fuel n tokens kwargs).1.countP isBeforeCallEv = 1) :=
  ⟨call_postValidationOnly fuel n tokens kwargs,
   call_beforeCall_count fuel n tokens kwargs⟩

/-- Witness for claim C5 on a concrete two-level dispatch. -/
theorem claim_C5_witness :
    postValidationOnly (call 2 sampleRootNode ["sub", "a"] []).1 = true
    ∧ (call 2 sampleRootNode ["sub", "a"] []).1.countP isBeforeCallEv = 1 :=
  ⟨(claim_C5 2 sampleRootNode ["sub", "a"] []).1,
   (claim_C5 2 sampleRootNode ["sub", "a"] []).2 (Or.inl (by decide))⟩

/-! ### C6 -/

/-- Claim C6: at a validated leaf (no selector consumed, requirement check
passed), if the instance's own dryrun value or an ancestor-propagated dryrun
value is truthy then the leaf action is never invoked — the invocation only
echoes the leftover tokens, the ancestor keyword map and the instance's
resolved argument values, and returns; otherwise the leaf action is invoked
with the leftover tokens and the ancestor keyword map. -/
theorem claim_C6 (fuel : Nat) (n : Node) (tokens : List String)
    (kwargs parsed : List (String × Value)) (leftover : List String)
    (inst : InstMap)
    (hscan : n.scan tokens = ScanRes.mk none parsed leftover)
    (hinst : n.afterParse (mkInst parsed) = inst)
    (hok : (check_required_arguments (n.args.map (fun p => p.2)) inst).2
      = Except.ok ()) :
    ((truthyO (inst "dryrun") || truthyO (lookupA "dryrun" kwargs)) = true →
      call (fuel + 1) n tokens kwargs
        = ([Event.parsedEv n.name parsed leftover, Event.afterParseEv n.name,
            Event.beforeCallEv n.name,
            Event.echoEv n.name leftover kwargs (as_dict n.args inst)],
           Outcome.done)
      ∧ ∀ e, e ∈ (call (fuel + 1) n tokens kwargs).1 → isActionEv e = false)
    ∧ ((truthyO (inst "dryrun") || truthyO (lookupA "dryrun" kwargs)) = false →
      call (fuel + 1) n tokens kwargs
        = ([Event.parsedEv n.name parsed leftover, Event.afterParseEv n.name,
            Event.beforeCallEv n.name,
            Event.actionEv n.name leftover kwargs (as_dict n.args inst)],
           Outcome.done)) := by
  constructor
  · intro hd
    have hcall : call (fuel + 1) n tokens kwargs
        = ([Event.parsedEv n.name parsed leftover, Event.afterParseEv n.name,
            Event.beforeCallEv n.name,
            Event.echoEv n.name leftover kwargs (as_dict n.args inst)],
           Outcome.done) := by
      simp [call, hscan, hinst, leafStep, hok, hd]
    refine ⟨hcall, ?_⟩
    rw [hcall]
    intro e he
    rcases List.mem_cons.mp he with rfl | he
    · rfl
    rcases List.mem_cons.mp he with rfl | he
    · rfl
    rcases List.mem_cons.mp he with rfl | he
    · rfl
    rcases List.mem_cons.mp he with rfl | he
    · rfl
    · simp at he
  · intro hd
    simp [call, hscan, hinst, leafStep, hok, hd]

/-- Witness for claim C6 on a concrete leaf whose dryrun was parsed true:
only the echo event is emitted, never the action. -/
theorem claim_C6_witness :
    call 1 sampleLeafNode ["a"] []
      = ([Event.parsedEv "leaf" [("dryrun", Value.vbool true)] ["a"],
          Event.afterParseEv "leaf", Event.beforeCallEv "leaf",
          Event.echoEv "leaf" ["a"] [] [("dryrun", some (Value.vbool true))]],
         Outcome.done) := by
  have h := claim_C6 0 sampleLeafNode ["a"] [] [("dryrun", Value.vbool true)]
    ["a"] (mkInst [("dryrun", Value.vbool true)]) rfl rfl rfl
  exact ((h.1 rfl).1).trans (by decide)

/-! ### C7 -/

/-- Claim C7: when the scan consumes a selector naming a resolved subcommand,
the current node's post-parse hook event strictly precedes the child's
instantiation event (during parsing only the class was recorded, no child
events exist yet), and the recursion into the child receives exactly the
leftover tokens together with the current node's parsed values merged over
the ancestor keyword map. -/
theorem claim_C7 (fuel : Nat) (n : Node) (tokens : List String)
    (kwargs parsed : List (String × Value)) (leftover : List String)
    (s : String) (child : Node)
    (hscan : n.scan tokens = ScanRes.mk (some s) parsed leftover)
    (hchild : lookupA s n.subs = some child) :
    call (fuel + 1) n tokens kwargs
      = (Event.parsedEv n.name parsed leftover
          :: Event.afterParseEv n.name
          :: Event.instantiatedEv child.name
          :: (call fuel child leftover (mergeKw kwargs parsed)).1,
         (call fuel child leftover (mergeKw kwargs parsed)).2) := by
  simp [call, hscan, hchild]

/-- Witness for claim C7 on the concrete two-level dispatch: the root's
post-parse event precedes the leaf's instantiation, and the leaf then parses
only the leftover token. -/
theorem claim_C7_witness :
    call 2 sampleRootNode ["sub", "a"] []
      = ([Event.parsedEv "root" [] ["a"], Event.afterParseEv "root",
          Event.instantiatedEv "leaf",
          Event.parsedEv "leaf" [("dryrun", Value.vbool true)] ["a"],
          Event.afterParseEv "leaf", Event.beforeCallEv "leaf",
          Event.echoEv "leaf" ["a"] [] [("dryrun", some (Value.vbool true))]],
         Outcome.done) := by
  have h := claim_C7 1 sampleRootNode ["sub", "a"] [] [] ["a"] "sub"
    sampleLeafNode rfl rfl
  rw [h]
  decide

end Commandclasses
